import Mathlib

/-!
Verification development for the MPI fire-extinguishing simulator.

The embedding models the distributed simulation core of the program.
Machine floats are modelled as exact rationals: the properties settled here
concern the arithmetic structure of the computation (which cells are read and
written, maxima of absolute differences, comparisons of integer squared
distances, exact multiplications by 0.75 and divisions by 4), all of which the
float program computes with the same operands.  Comparisons of Euclidean
distances between integer lattice points are modelled by comparisons of the
integer squared distances, which order the same way because the square root is
strictly monotone.
-/

namespace FireSim

/-- Structure to store data of an extinguishing team, as in the source. -/
structure Team where
  x : Int
  y : Int
  type : Int
  target : Int
deriving DecidableEq, Repr

/-- Structure to store data of a fire focal point, as in the source.
The active field uses the source encoding: 0 not yet activated, 1 active,
2 deactivated by a team. -/
structure FocalPoint where
  x : Int
  y : Int
  start : Int
  heat : Int
  active : Int
deriving DecidableEq, Repr

/-- A local slice buffer (surface or surfaceCopy): local row index 0 is the top
halo row, rows 1..chunk are the owned rows, row chunk+1 is the bottom halo. -/
abbrev Grid : Type := Int → Int → ℚ

/-- Pointwise single-cell write, the accessMat assignment. -/
def updateGrid (g : Grid) (i j : Int) (v : ℚ) : Grid :=
  fun a b => if a = i ∧ b = j then v else g a b

/-- Overwrite one whole local row with given contents (a halo receive). -/
def rowUpd (g : Grid) (i : Int) (row : Int → ℚ) : Grid :=
  fun a b => if a = i then row b else g a b

/-- Global index of the first row owned by a rank: g_start = rank * chunk. -/
def gS (r chunk : Nat) : Int := ((r * chunk : Nat) : Int)

/-- Global index of the last row owned by a rank: g_end = g_start + chunk - 1. -/
def gE (r chunk : Nat) : Int := gS r chunk + (chunk : Int) - 1

/-- Heat write of step 4.2.1 of the source for one focal point: if it is
active, inside the global grid, and its global row is owned by this rank,
its heat is written into the surface at local row gx - g_start + 1. -/
def heatStep (rows columns : Nat) (g_start g_end : Int) (g : Grid) (p : FocalPoint) : Grid :=
  if p.active = 1 then
    if p.x < 0 ∨ p.x > (rows : Int) - 1 ∨ p.y < 0 ∨ p.y > (columns : Int) - 1 then g
    else if g_start ≤ p.x ∧ p.x ≤ g_end then
      updateGrid g (p.x - g_start + 1) p.y (p.heat : ℚ)
    else g
  else g

/-- Step 4.2.1 of the source: the heat write folded over the focal array in
order, later writes overwriting earlier ones. -/
def heatWrites (rows columns : Nat) (g_start g_end : Int)
    (focal : List FocalPoint) (g : Grid) : Grid :=
  focal.foldl (heatStep rows columns g_start g_end) g

/-- Step 4.2.1.5 of the source: the halo exchange.  A rank with a top neighbor
receives the last owned row of that neighbor (local row chunk) into its local row 0;
a rank with a bottom neighbor receives the first owned row of that neighbor (local
row 1) into its local row chunk+1.  The MPI_Sendrecv pairs read the send
buffers as they stand at the call, so the whole exchange is a deterministic
function of the pre-exchange system state. -/
def haloExchange (size chunk : Nat) (surf : Nat → Grid) : Nat → Grid :=
  fun r =>
    let g := surf r
    let g1 := if 0 < r then rowUpd g 0 (fun j => surf (r - 1) (chunk : Int) j) else g
    if r < size - 1 then rowUpd g1 ((chunk : Int) + 1) (fun j => surf (r + 1) 1 j) else g1

/-- Predicate for an owned interior cell in local coordinates: local row i is
an owned row (1..chunk) whose global row gx = g_start + (i-1) is strictly
inside the global row range, and column j is strictly inside the columns. -/
def ownsInterior (rows columns chunk : Nat) (g_start : Int) (i j : Int) : Prop :=
  1 ≤ i ∧ i ≤ (chunk : Int) ∧
  1 ≤ g_start + (i - 1) ∧ g_start + (i - 1) ≤ (rows : Int) - 2 ∧
  1 ≤ j ∧ j ≤ (columns : Int) - 2

instance (rows columns chunk : Nat) (g_start : Int) (i j : Int) :
    Decidable (ownsInterior rows columns chunk g_start i j) := by
  unfold ownsInterior; infer_instance

/-- Step 4.2.3 of the source: the stencil sweep.  Every owned interior cell is
rewritten with the average of its four axis neighbors read from the previous
generation buffer surfaceCopy; every other cell keeps its surface value.  The
loop order is irrelevant because all reads are from surfaceCopy. -/
def stencilUpdate (rows columns chunk : Nat) (g_start : Int)
    (surfaceCopy surface : Grid) : Grid :=
  fun i j =>
    if ownsInterior rows columns chunk g_start i j then
      (surfaceCopy (i - 1) j + surfaceCopy (i + 1) j +
       surfaceCopy i (j - 1) + surfaceCopy i (j + 1)) / 4
    else surface i j

/-- Step 4.2.4 of the source: the local residual.  Nested loops over the owned
rows (skipping rows whose global index is on the global border) and interior
columns, taking the running maximum of the absolute differences between
surface and surfaceCopy, starting from 0. -/
def localResidual (rows columns chunk : Nat) (g_start : Int)
    (surface surfaceCopy : Grid) : ℚ :=
  (List.range chunk).foldl (fun acc (i0 : Nat) =>
    if 1 ≤ g_start + (i0 : Int) ∧ g_start + (i0 : Int) ≤ (rows : Int) - 2 then
      (List.range (columns - 2)).foldl (fun acc2 (j0 : Nat) =>
        max acc2 |surface ((i0 : Int) + 1) ((j0 : Int) + 1) -
                  surfaceCopy ((i0 : Int) + 1) ((j0 : Int) + 1)|) acc
    else acc) 0

/-- MPI_Allreduce with MPI_MAX over all ranks: the maximum of the per-rank
values. -/
def allreduceMax (size : Nat) (f : Nat → ℚ) : ℚ :=
  (List.range size).foldl (fun acc r => max acc (f r)) (f 0)

/-- MPI_Allreduce with MPI_SUM over all ranks: the sum of the per-rank
values. -/
def allreduceSum (size : Nat) (f : Nat → Nat) : Nat :=
  (List.range size).foldl (fun acc r => acc + f r) 0

/-- System state after the heat writes of a sub-step, rank by rank. -/
def heatAll (rows columns size : Nat) (focal : List FocalPoint)
    (surf : Nat → Grid) : Nat → Grid :=
  fun r => heatWrites rows columns (gS r (rows / size)) (gE r (rows / size)) focal (surf r)

/-- System state after the halo exchange of a sub-step; this is also the
surfaceCopy of the sub-step since step 4.2.2 copies surface including halos. -/
def exchanged (rows columns size : Nat) (focal : List FocalPoint)
    (surf : Nat → Grid) : Nat → Grid :=
  haloExchange size (rows / size) (heatAll rows columns size focal surf)

/-- System state after the stencil sweep of a sub-step, rank by rank. -/
def stencilAll (rows columns size : Nat) (focal : List FocalPoint)
    (surf : Nat → Grid) : Nat → Grid :=
  fun r =>
    stencilUpdate rows columns (rows / size) (gS r (rows / size))
      (exchanged rows columns size focal surf r)
      (exchanged rows columns size focal surf r)

/-- Globally reduced residual of one sub-step. -/
def stepResidual (rows columns size : Nat) (focal : List FocalPoint)
    (surf : Nat → Grid) : ℚ :=
  allreduceMax size (fun r =>
    localResidual rows columns (rows / size) (gS r (rows / size))
      (stencilAll rows columns size focal surf r)
      (exchanged rows columns size focal surf r))

/-- One sub-step of step 4.2: heat writes, halo exchange, copy, stencil sweep,
residual reduction.  Returns the new per-rank surfaces and the globally
reduced residual of this sub-step. -/
def subStep (rows columns size : Nat) (focal : List FocalPoint)
    (surf : Nat → Grid) : (Nat → Grid) × ℚ :=
  (stencilAll rows columns size focal surf, stepResidual rows columns size focal surf)

/-- The loop of 10 sub-steps; the residual carried out of the loop is the one
of the last executed sub-step (global_residual starts at 0.0). -/
def subStepsLoop (rows columns size : Nat) (focal : List FocalPoint) :
    Nat → (Nat → Grid) × ℚ → (Nat → Grid) × ℚ
  | 0, acc => acc
  | n + 1, acc => subStepsLoop rows columns size focal n (subStep rows columns size focal acc.1)

/-- THRESHOLD of the source, modelled as the exact rational 0.1. -/
def threshold : ℚ := mkRat 1 10

/-- Step 4.1 of the source: a focal point whose start tick equals the current
outer iteration becomes active. -/
def activateFocal (iter : Int) (focal : List FocalPoint) : List FocalPoint :=
  focal.map (fun p => if p.start = iter then { p with active := 1 } else p)

/-- Count of focal points already deactivated by a team, as computed by every
rank over its replicated focal array in step 4.1. -/
def countDeactivated (focal : List FocalPoint) : Nat :=
  (focal.filter (fun p => p.active = 2)).length

/-- Integer squared distance from a focal point to the team position; the
float code compares sqrtf of these values, and sqrt is strictly monotone. -/
def d2To (tx ty : Int) (p : FocalPoint) : Int :=
  (p.x - tx) * (p.x - tx) + (p.y - ty) * (p.y - ty)

/-- Comparison against the running best distance of the target scan; the
running distance starts at FLT_MAX, which every actual distance beats. -/
def betterB (d : Int) : Option Int → Bool
  | none => true
  | some b => decide (d < b)

/-- The scan of step 4.3.1: walk the focal array keeping the index of the
closest active focal point seen so far, updating only on strictly smaller
distance.  The accumulator holds the best squared distance (none standing for
the initial FLT_MAX) and the best index (initially -1). -/
def chooseTargetAux (tx ty : Int) : Nat → List FocalPoint → Option Int × Int → Option Int × Int
  | _, [], acc => acc
  | j, p :: rest, acc =>
    chooseTargetAux tx ty (j + 1) rest
      (if p.active = 1 ∧ betterB (d2To tx ty p) acc.1 = true
       then (some (d2To tx ty p), (j : Int)) else acc)

/-- Target selection of step 4.3.1 for a team at position (tx, ty). -/
def chooseTarget (focal : List FocalPoint) (tx ty : Int) : Int :=
  (chooseTargetAux tx ty 0 focal (none, -1)).2

/-- Steps 4.3.1 to 4.3.4 of the source for a single team: annotate the chosen
target, then move one unit step toward it according to the movement policy of
the team type (1 diagonal, 2 horizontal first, otherwise vertical first).
With no active focal point the target is -1 and the team does not move.  The
out-of-range lookup branch is unreachable because the chosen target is always
a valid index or -1. -/
def moveTeam (focal : List FocalPoint) (tm : Team) : Team :=
  let target := chooseTarget focal tm.x tm.y
  let tm1 : Team := { tm with target := target }
  if target = -1 then tm1
  else
    match focal[target.toNat]? with
    | none => tm1
    | some p =>
      if tm1.type = 1 then
        let x1 := if p.x < tm1.x then tm1.x - 1 else tm1.x
        let x2 := if p.x > x1 then x1 + 1 else x1
        let y1 := if p.y < tm1.y then tm1.y - 1 else tm1.y
        let y2 := if p.y > y1 then y1 + 1 else y1
        { tm1 with x := x2, y := y2 }
      else if tm1.type = 2 then
        if p.y < tm1.y then { tm1 with y := tm1.y - 1 }
        else if p.y > tm1.y then { tm1 with y := tm1.y + 1 }
        else if p.x < tm1.x then { tm1 with x := tm1.x - 1 }
        else if p.x > tm1.x then { tm1 with x := tm1.x + 1 }
        else tm1
      else
        if p.x < tm1.x then { tm1 with x := tm1.x - 1 }
        else if p.x > tm1.x then { tm1 with x := tm1.x + 1 }
        else if p.y < tm1.y then { tm1 with y := tm1.y - 1 }
        else if p.y > tm1.y then { tm1 with y := tm1.y + 1 }
        else tm1

/-- Step 4.4.1 of the source for a single team: if the team has a target and
its coordinates equal the target coordinates while the target is still active,
the target focal point is deactivated.  Only the focal point indexed by the
target field of the team is ever touched. -/
def teamActionStep (tm : Team) (focal : List FocalPoint) : List FocalPoint :=
  if tm.target ≠ -1 then
    match focal[tm.target.toNat]? with
    | some p =>
      if p.x = tm.x ∧ p.y = tm.y ∧ p.active = 1
      then focal.set tm.target.toNat { p with active := 2 }
      else focal
    | none => focal
  else focal

/-- Step 4.4.1 folded over all teams in array order; later teams see the
deactivations made by earlier teams of the same iteration. -/
def teamActionsFocal (teams : List Team) (focal : List FocalPoint) : List FocalPoint :=
  teams.foldl (fun fl tm => teamActionStep tm fl) focal

/-- Step 4.4.2 of the source for a single team on a single rank, written
pointwise: a local cell (li, j) with global row i = g_start + (li - 1) is
multiplied by 0.75 exactly when the cell lies in the bounding box of the team,
inside the heated interior, within true Euclidean radius of the team, and its
global row is owned by this rank.  The nested loops visit every cell at most
once, so the pointwise form computes the same grid. -/
def suppressTeam (rows columns : Nat) (g_start g_end : Int) (tm : Team) (g : Grid) : Grid :=
  fun li j =>
    let radius : Int := if tm.type = 1 then 3 else 9
    let i := g_start + (li - 1)
    if tm.x - radius ≤ i ∧ i ≤ tm.x + radius ∧ tm.y - radius ≤ j ∧ j ≤ tm.y + radius ∧
       1 ≤ i ∧ i ≤ (rows : Int) - 2 ∧ 1 ≤ j ∧ j ≤ (columns : Int) - 2 ∧
       (tm.x - i) * (tm.x - i) + (tm.y - j) * (tm.y - j) ≤ radius * radius ∧
       g_start ≤ i ∧ i ≤ g_end
    then g li j * (3 / 4)
    else g li j

/-- Step 4.4.2 folded over all teams in array order; a cell inside the radius
of several teams is reduced once per team. -/
def suppressAll (rows columns : Nat) (g_start g_end : Int)
    (teams : List Team) (g : Grid) : Grid :=
  teams.foldl (fun g tm => suppressTeam rows columns g_start g_end tm g) g

/-- The replicated team and focal update of one outer iteration (steps 4.1
activation, 4.3 targeting and movement, 4.4.1 deactivation).  This is a pure
function of the replicated state and the iteration counter; it reads neither
the grid, nor the rank, nor the worker count. -/
def replicatedUpdate (iter : Int) (teams : List Team) (focal : List FocalPoint) :
    List Team × List FocalPoint :=
  let focal1 := activateFocal iter focal
  let teams1 := teams.map (moveTeam focal1)
  (teams1, teamActionsFocal teams1 focal1)

/-- State of the distributed simulation at an outer-iteration boundary: the
per-rank surfaces, the replicated team and focal arrays (identical on every
rank, see the determinism theorem), and the stability flag. -/
structure SysState where
  surf : Nat → Grid
  teams : List Team
  focal : List FocalPoint
  flag : Bool

/-- One outer iteration of step 4 of the source, for a run entering the
iteration with the stability flag down: focal activation and the SUM reduction
of the per-rank deactivated counts (each rank contributes the count of its own
replica), ten sub-steps of heat propagation, the stability test against the
residual of the last sub-step, team movement, team deactivations, and team
heat suppression on the owned rows of each rank. -/
def outerIter (rows columns size : Nat) (iter : Int) (st : SysState) : SysState :=
  let focal1 := activateFocal iter st.focal
  let nd := allreduceSum size (fun _ => countDeactivated focal1)
  let res := subStepsLoop rows columns size focal1 10 (st.surf, 0)
  let flag := if nd = st.focal.length ∧ res.2 < threshold then true else st.flag
  let teams1 := st.teams.map (moveTeam focal1)
  let focal2 := teamActionsFocal teams1 focal1
  let surf2 := fun r =>
    suppressAll rows columns (gS r (rows / size)) (gE r (rows / size)) teams1 (res.1 r)
  ⟨surf2, teams1, focal2, flag⟩

/-- Behavior of the program right after a checked allocation. -/
inductive AllocBehavior where
  | proceed
  | reportContinue
  | reportExit
  | reportMpiAbort
deriving DecidableEq, Repr

/-- The check of the surface and surfaceCopy allocations in step 3 of the
source: on failure an error line is printed to stderr, but control falls
through into the initialization loops; there is no exit and no MPI_Abort. -/
def surfaceAllocCheck (surfaceNull surfaceCopyNull : Bool) : AllocBehavior :=
  if surfaceNull || surfaceCopyNull then .reportContinue else .proceed

/-- The check of the teams allocation in step 1 of the source: on failure an
error line is printed to stderr and the process exits with EXIT_FAILURE. -/
def teamsAllocCheck (teamsNull : Bool) : AllocBehavior :=
  if teamsNull then .reportExit else .proceed

/-- The check of the focal allocation in the file-reading branch of step 1 of
the source: on failure an error line is printed and the process exits. -/
def focalAllocCheck (focalNull : Bool) : AllocBehavior :=
  if focalNull then .reportExit else .proceed

/-- The check of the fullSurface allocation on rank 0 before the gather: on
failure an error line is printed and MPI_Abort takes down the whole cohort. -/
def fullSurfaceAllocCheck (fullNull : Bool) : AllocBehavior :=
  if fullNull then .reportMpiAbort else .proceed

/-! Generic lemmas about running-maximum folds, used for the residual. -/

theorem foldl_expanding {α : Type} (step : ℚ → α → ℚ)
    (hmono : ∀ a x, a ≤ step a x) :
    ∀ (l : List α) (a : ℚ), a ≤ l.foldl step a := by
  intro l
  induction l with
  | nil => intro a; exact le_refl a
  | cons x xs ih => intro a; exact le_trans (hmono a x) (ih (step a x))

theorem foldl_le_of_mem {α : Type} (step : ℚ → α → ℚ)
    (hmono : ∀ a x, a ≤ step a x) (v : ℚ) (x0 : α)
    (hx : ∀ a, v ≤ step a x0) :
    ∀ (l : List α) (a : ℚ), x0 ∈ l → v ≤ l.foldl step a := by
  intro l
  induction l with
  | nil => intro a hmem; cases hmem
  | cons x xs ih =>
    intro a hmem
    rcases List.mem_cons.mp hmem with h | h
    · subst h
      exact le_trans (hx a) (foldl_expanding step hmono xs (step a x0))
    · exact ih (step a x) h

theorem foldl_attained {α : Type} (step : ℚ → α → ℚ) (V : ℚ → Prop) :
    ∀ (l : List α) (a : ℚ),
      (∀ a2, ∀ x ∈ l, step a2 x = a2 ∨ V (step a2 x)) →
      l.foldl step a = a ∨ V (l.foldl step a) := by
  intro l
  induction l with
  | nil => intro a _; exact Or.inl rfl
  | cons x xs ih =>
    intro a hstep
    have hrest : ∀ a2, ∀ y ∈ xs, step a2 y = a2 ∨ V (step a2 y) := by
      intro a2 y hy; exact hstep a2 y (List.mem_cons_of_mem x hy)
    rcases ih (step a x) hrest with h | h
    · rw [List.foldl_cons, h]
      exact hstep a x (List.mem_cons_self x xs)
    · exact Or.inr h

/-! Frame lemmas: the heat writes and the team suppression touch only owned
local rows (1..chunk); the halo exchange touches only the halo rows. -/

theorem heatStep_frame (rows columns : Nat) (g_start g_end : Int)
    (g : Grid) (p : FocalPoint) (li j : Int)
    (h : li < 1 ∨ g_end - g_start + 1 < li) :
    heatStep rows columns g_start g_end g p li j = g li j := by
  unfold heatStep
  split
  · split
    · rfl
    · split
      · rename_i hown
        unfold updateGrid
        rw [if_neg]
        rintro ⟨h1, h2⟩
        omega
      · rfl
  · rfl

theorem heatWrites_frame (rows columns : Nat) (g_start g_end : Int)
    (focal : List FocalPoint) (g : Grid) (li j : Int)
    (h : li < 1 ∨ g_end - g_start + 1 < li) :
    heatWrites rows columns g_start g_end focal g li j = g li j := by
  induction focal generalizing g with
  | nil => rfl
  | cons p ps ih =>
    exact (ih (heatStep rows columns g_start g_end g p)).trans
      (heatStep_frame rows columns g_start g_end g p li j h)

theorem suppressTeam_frame (rows columns : Nat) (g_start g_end : Int)
    (tm : Team) (g : Grid) (li j : Int)
    (h : li < 1 ∨ g_end - g_start + 1 < li) :
    suppressTeam rows columns g_start g_end tm g li j = g li j := by
  simp only [suppressTeam]
  rw [if_neg]
  rintro ⟨-, -, -, -, -, -, -, -, -, h1, h2⟩
  omega

theorem suppressAll_frame (rows columns : Nat) (g_start g_end : Int)
    (teams : List Team) (g : Grid) (li j : Int)
    (h : li < 1 ∨ g_end - g_start + 1 < li) :
    suppressAll rows columns g_start g_end teams g li j = g li j := by
  induction teams generalizing g with
  | nil => rfl
  | cons tm ts ih =>
    exact (ih (suppressTeam rows columns g_start g_end tm g)).trans
      (suppressTeam_frame rows columns g_start g_end tm g li j h)

theorem haloExchange_bottom (size chunk : Nat) (surf : Nat → Grid) (r : Nat) (j : Int)
    (hr : r < size - 1) :
    haloExchange size chunk surf r ((chunk : Int) + 1) j = surf (r + 1) 1 j := by
  simp only [haloExchange]
  rw [if_pos hr]
  unfold rowUpd
  rw [if_pos rfl]

theorem haloExchange_top (size chunk : Nat) (surf : Nat → Grid) (r : Nat) (j : Int)
    (hr : 0 < r) :
    haloExchange size chunk surf r 0 j = surf (r - 1) (chunk : Int) j := by
  simp only [haloExchange]
  rw [if_pos hr]
  by_cases hb : r < size - 1
  · rw [if_pos hb]
    unfold rowUpd
    rw [if_neg (by omega : ¬ (0 : Int) = (chunk : Int) + 1), if_pos rfl]
  · rw [if_neg hb]
    unfold rowUpd
    rw [if_pos rfl]

theorem haloExchange_owned (size chunk : Nat) (surf : Nat → Grid) (r : Nat) (li j : Int)
    (h1 : 1 ≤ li) (h2 : li ≤ (chunk : Int)) :
    haloExchange size chunk surf r li j = surf r li j := by
  simp only [haloExchange]
  by_cases hb : r < size - 1
  · rw [if_pos hb]
    unfold rowUpd
    rw [if_neg (by omega : ¬ li = (chunk : Int) + 1)]
    by_cases ht : 0 < r
    · rw [if_pos ht, if_neg (by omega : ¬ li = (0 : Int))]
    · rw [if_neg ht]
  · rw [if_neg hb]
    by_cases ht : 0 < r
    · rw [if_pos ht]
      unfold rowUpd
      rw [if_neg (by omega : ¬ li = (0 : Int))]
    · rw [if_neg ht]

theorem haloExchange_rank0_row0 (size chunk : Nat) (surf : Nat → Grid) (j : Int) :
    haloExchange size chunk surf 0 0 j = surf 0 0 j := by
  simp only [haloExchange]
  rw [if_neg (by omega : ¬ (0 : Nat) < 0)]
  by_cases hb : 0 < size - 1
  · rw [if_pos hb]
    unfold rowUpd
    rw [if_neg (by omega : ¬ (0 : Int) = (chunk : Int) + 1)]
  · rw [if_neg hb]

theorem haloExchange_last (size chunk : Nat) (surf : Nat → Grid) (j : Int) :
    haloExchange size chunk surf (size - 1) ((chunk : Int) + 1) j =
      surf (size - 1) ((chunk : Int) + 1) j := by
  simp only [haloExchange]
  rw [if_neg (by omega : ¬ size - 1 < size - 1)]
  by_cases ht : 0 < size - 1
  · rw [if_pos ht]
    unfold rowUpd
    rw [if_neg (by omega : ¬ (chunk : Int) + 1 = (0 : Int))]
  · rw [if_neg ht]

theorem notOwnsRow0 (rows columns chunk : Nat) (g_start : Int) (j : Int) :
    ¬ ownsInterior rows columns chunk g_start 0 j :=
  fun hcon => absurd hcon.1 (by omega)

theorem notOwnsRowBottom (rows columns chunk : Nat) (g_start : Int) (j : Int) :
    ¬ ownsInterior rows columns chunk g_start ((chunk : Int) + 1) j :=
  fun hcon => absurd hcon.2.1 (by omega)

theorem subStep_outward_top (rows columns size : Nat) (focal : List FocalPoint)
    (surf : Nat → Grid) (j : Int) :
    (subStep rows columns size focal surf).1 0 0 j = surf 0 0 j := by
  show stencilAll rows columns size focal surf 0 0 j = surf 0 0 j
  unfold stencilAll stencilUpdate
  rw [if_neg (notOwnsRow0 rows columns (rows / size) (gS 0 (rows / size)) j)]
  unfold exchanged
  rw [haloExchange_rank0_row0]
  exact heatWrites_frame rows columns (gS 0 (rows / size)) (gE 0 (rows / size))
    focal (surf 0) 0 j (Or.inl (by omega))

theorem subStep_outward_bottom (rows columns size : Nat) (focal : List FocalPoint)
    (surf : Nat → Grid) (j : Int) :
    (subStep rows columns size focal surf).1 (size - 1) (((rows / size : ℕ) : ℤ) + 1) j =
      surf (size - 1) (((rows / size : ℕ) : ℤ) + 1) j := by
  show stencilAll rows columns size focal surf (size - 1) (((rows / size : ℕ) : ℤ) + 1) j = _
  unfold stencilAll stencilUpdate
  rw [if_neg (notOwnsRowBottom rows columns (rows / size) (gS (size - 1) (rows / size)) j)]
  unfold exchanged
  rw [haloExchange_last]
  refine heatWrites_frame rows columns (gS (size - 1) (rows / size)) (gE (size - 1) (rows / size))
    focal (surf (size - 1)) (((rows / size : ℕ) : ℤ) + 1) j (Or.inr ?_)
  simp only [gS, gE]
  omega

/-! Characterization of the residual folds as maxima. -/

theorem localResidual_bound (rows columns chunk : Nat) (g_start : Int)
    (s c : Grid) (i j : Int)
    (hij : ownsInterior rows columns chunk g_start i j) :
    |s i j - c i j| ≤ localResidual rows columns chunk g_start s c := by
  obtain ⟨h1, h2, h3, h4, h5, h6⟩ := hij
  have himem : (i - 1).toNat ∈ List.range chunk := List.mem_range.mpr (by omega)
  have hjmem : (j - 1).toNat ∈ List.range (columns - 2) := List.mem_range.mpr (by omega)
  have hieq : (((i - 1).toNat : Nat) : Int) + 1 = i := by omega
  have hjeq : (((j - 1).toNat : Nat) : Int) + 1 = j := by omega
  unfold localResidual
  refine foldl_le_of_mem _ ?_ |s i j - c i j| ((i - 1).toNat) ?_ (List.range chunk) 0 himem
  · intro a x
    dsimp only
    split
    · exact foldl_expanding _ (fun a2 y => le_max_left _ _) _ a
    · exact le_refl a
  · intro a
    dsimp only
    rw [if_pos (by constructor <;> omega)]
    refine foldl_le_of_mem _ (fun a2 y => le_max_left _ _) |s i j - c i j| ((j - 1).toNat)
      ?_ (List.range (columns - 2)) a hjmem
    intro a2
    rw [hieq, hjeq]
    exact le_max_right a2 |s i j - c i j|

theorem localResidual_attained (rows columns chunk : Nat) (g_start : Int) (s c : Grid)
    (i j : Int) (hij : ownsInterior rows columns chunk g_start i j) :
    ∃ a b : Int, ownsInterior rows columns chunk g_start a b ∧
      localResidual rows columns chunk g_start s c = |s a b - c a b| := by
  have hmain := foldl_attained
    (fun acc (i0 : Nat) =>
      if 1 ≤ g_start + (i0 : Int) ∧ g_start + (i0 : Int) ≤ (rows : Int) - 2 then
        (List.range (columns - 2)).foldl (fun acc2 (j0 : Nat) =>
          max acc2 |s ((i0 : Int) + 1) ((j0 : Int) + 1) -
                    c ((i0 : Int) + 1) ((j0 : Int) + 1)|) acc
      else acc)
    (fun w => ∃ a b : Int, ownsInterior rows columns chunk g_start a b ∧ w = |s a b - c a b|)
    (List.range chunk) 0 ?_
  · rcases hmain with h0 | ⟨a, b, hab, hw⟩
    · have h0q : localResidual rows columns chunk g_start s c = 0 := h0
      have hb := localResidual_bound rows columns chunk g_start s c i j hij
      rw [h0q] at hb
      have habs : |s i j - c i j| = 0 := le_antisymm hb (abs_nonneg _)
      exact ⟨i, j, hij, h0q.trans habs.symm⟩
    · exact ⟨a, b, hab, hw⟩
  · intro a2 x hx
    have hxlt := List.mem_range.mp hx
    dsimp only
    split
    · rename_i hguard
      obtain ⟨hg1, hg2⟩ := hguard
      refine foldl_attained _
        (fun w => ∃ a b : Int, ownsInterior rows columns chunk g_start a b ∧ w = |s a b - c a b|)
        (List.range (columns - 2)) a2 ?_
      intro a3 y hy
      have hylt := List.mem_range.mp hy
      dsimp only
      rcases max_choice a3 |s ((x : Int) + 1) ((y : Int) + 1) -
          c ((x : Int) + 1) ((y : Int) + 1)| with hmc | hmc
      · exact Or.inl hmc
      · refine Or.inr ⟨(x : Int) + 1, (y : Int) + 1, ?_, hmc⟩
        refine ⟨by omega, by omega, by omega, by omega, by omega, by omega⟩
    · exact Or.inl rfl

theorem allreduceMax_bound (size : Nat) (f : Nat → ℚ) (r : Nat) (hr : r < size) :
    f r ≤ allreduceMax size f := by
  unfold allreduceMax
  exact foldl_le_of_mem _ (fun a x => le_max_left a (f x)) (f r) r
    (fun a => le_max_right a (f r)) (List.range size) (f 0) (List.mem_range.mpr hr)

theorem allreduceMax_attained (size : Nat) (f : Nat → ℚ) (hsz : 0 < size) :
    ∃ q, q < size ∧ allreduceMax size f = f q := by
  have hmain := foldl_attained (fun acc r => max acc (f r))
    (fun w => ∃ q, q < size ∧ w = f q) (List.range size) (f 0) ?_
  · rcases hmain with h | ⟨q, hq, hw⟩
    · exact ⟨0, hsz, h⟩
    · exact ⟨q, hq, hw⟩
  · intro a2 x hx
    rcases max_choice a2 (f x) with hmc | hmc
    · exact Or.inl hmc
    · exact Or.inr ⟨x, List.mem_range.mp hx, hmc⟩

/-- C3: in every sub-step, for every owned cell whose global row is strictly
inside [1, rows-2] and whose column is strictly inside [1, columns-2], the
stencil update writes the arithmetic mean of the four axis neighbors of the
cell, read from the previous-generation buffer surfaceCopy, into the current
buffer surface; and it writes no other cell, so global border rows and columns
are never overwritten by the stencil. -/
theorem stencil_mean_and_frame (rows columns chunk : Nat) (g_start : Int)
    (surfaceCopy surface : Grid) (i j a b : Int)
    (h : ownsInterior rows columns chunk g_start i j)
    (hb : ¬ ownsInterior rows columns chunk g_start a b) :
    stencilUpdate rows columns chunk g_start surfaceCopy surface i j =
      (surfaceCopy (i - 1) j + surfaceCopy (i + 1) j +
       surfaceCopy i (j - 1) + surfaceCopy i (j + 1)) / 4 ∧
    stencilUpdate rows columns chunk g_start surfaceCopy surface a b = surface a b := by
  constructor
  · unfold stencilUpdate
    rw [if_pos h]
  · unfold stencilUpdate
    rw [if_neg hb]

theorem stencil_mean_and_frame_witness :
    ownsInterior 4 4 4 0 2 1 ∧ ¬ ownsInterior 4 4 4 0 0 0 ∧
    (stencilUpdate 4 4 4 0 (fun _ _ => 8) (fun _ _ => 5) 2 1 = (8 + 8 + 8 + 8 : ℚ) / 4 ∧
     stencilUpdate 4 4 4 0 (fun _ _ => 8) (fun _ _ => 5) 0 0 = 5) :=
  ⟨by decide, by decide,
   stencil_mean_and_frame 4 4 4 0 (fun _ _ => 8) (fun _ _ => 5) 2 1 0 0
     (by decide) (by decide)⟩

/-- C2: the local residual of a worker is exactly the maximum, over its owned
interior cells, of the absolute difference between the new surface value and
the previous-generation surfaceCopy value: it bounds the difference at every
owned interior cell (first conjunct) and is attained at one of them (second
conjunct); the globally reduced residual is exactly the maximum of the per-rank
values (third and fourth conjuncts); and the residual returned by a sub-step
is precisely the MAX reduction of the per-rank local residuals of the
post-stencil surface against the previous-generation copy (last conjunct). -/
theorem local_residual_is_max (rows columns chunk size : Nat) (g_start : Int)
    (s c : Grid) (f : Nat → ℚ) (focal : List FocalPoint) (surf : Nat → Grid)
    (i j : Int) (hij : ownsInterior rows columns chunk g_start i j)
    (r : Nat) (hr : r < size) (hsz : 0 < size) :
    (|s i j - c i j| ≤ localResidual rows columns chunk g_start s c) ∧
    (∃ a b : Int, ownsInterior rows columns chunk g_start a b ∧
       localResidual rows columns chunk g_start s c = |s a b - c a b|) ∧
    (f r ≤ allreduceMax size f) ∧
    (∃ q, q < size ∧ allreduceMax size f = f q) ∧
    (subStep rows columns size focal surf).2 = allreduceMax size (fun q =>
       localResidual rows columns (rows / size) (gS q (rows / size))
         (stencilAll rows columns size focal surf q)
         (exchanged rows columns size focal surf q)) :=
  ⟨localResidual_bound rows columns chunk g_start s c i j hij,
   localResidual_attained rows columns chunk g_start s c i j hij,
   allreduceMax_bound size f r hr,
   allreduceMax_attained size f hsz,
   rfl⟩

theorem local_residual_is_max_witness :
    (ownsInterior 4 3 2 1 1 1 ∧ (1 : ℕ) < 2 ∧ (0 : ℕ) < 2) ∧
    ((|(9 : ℚ) - 4| ≤ localResidual 4 3 2 1 (fun _ _ => 9) (fun _ _ => 4)) ∧
     (∃ a b : Int, ownsInterior 4 3 2 1 a b ∧
        localResidual 4 3 2 1 (fun _ _ => 9) (fun _ _ => 4) = |(9 : ℚ) - 4|) ∧
     ((fun _ : Nat => (2 : ℚ)) 1 ≤ allreduceMax 2 (fun _ => 2)) ∧
     (∃ q, q < 2 ∧ allreduceMax 2 (fun _ => 2) = (fun _ : Nat => (2 : ℚ)) q) ∧
     (subStep 4 3 2 [] (fun _ => fun _ _ => 0)).2 = allreduceMax 2 (fun q =>
        localResidual 4 3 (4 / 2) (gS q (4 / 2))
          (stencilAll 4 3 2 [] (fun _ => fun _ _ => 0) q)
          (exchanged 4 3 2 [] (fun _ => fun _ _ => 0) q))) := by
  refine ⟨by decide, ?_⟩
  exact local_residual_is_max 4 3 2 2 1 (fun _ _ => 9) (fun _ _ => 4) (fun _ => 2) []
    (fun _ => fun _ _ => 0) 1 1 (by decide) 1 (by decide) (by decide)

/-- C4: in every sub-step, after the halo exchange and before the stencil
update, for row-adjacent ranks r and r+1 the bottom halo row of rank r equals
the first owned row of rank r+1 and the top halo row of rank r+1 equals the
last owned row of rank r, as those rows stand after the heat writes of this
sub-step (the exchange leaves owned rows untouched, third conjunct); and the
outward-facing halo of rank 0 and of the last rank is preserved by the whole
sub-step and by the team suppression, hence never updated after
initialization. -/
theorem halo_exchange_freshness (rows columns size : Nat) (focal : List FocalPoint)
    (teams : List Team) (surf : Nat → Grid) (g : Grid) (r r2 : Nat) (li j : Int)
    (hr : r + 1 < size) (hli : 1 ≤ li ∧ li ≤ ((rows / size : ℕ) : ℤ)) :
    exchanged rows columns size focal surf r (((rows / size : ℕ) : ℤ) + 1) j =
      heatAll rows columns size focal surf (r + 1) 1 j ∧
    exchanged rows columns size focal surf (r + 1) 0 j =
      heatAll rows columns size focal surf r ((rows / size : ℕ) : ℤ) j ∧
    exchanged rows columns size focal surf r2 li j =
      heatAll rows columns size focal surf r2 li j ∧
    (subStep rows columns size focal surf).1 0 0 j = surf 0 0 j ∧
    (subStep rows columns size focal surf).1 (size - 1) (((rows / size : ℕ) : ℤ) + 1) j =
      surf (size - 1) (((rows / size : ℕ) : ℤ) + 1) j ∧
    suppressAll rows columns (gS r2 (rows / size)) (gE r2 (rows / size)) teams g 0 j = g 0 j ∧
    suppressAll rows columns (gS r2 (rows / size)) (gE r2 (rows / size)) teams g
      (((rows / size : ℕ) : ℤ) + 1) j = g (((rows / size : ℕ) : ℤ) + 1) j := by
  have hge : gE r2 (rows / size) - gS r2 (rows / size) + 1 = ((rows / size : ℕ) : ℤ) := by
    simp only [gS, gE]; omega
  refine ⟨?_, ?_, ?_, ?_, ?_, ?_, ?_⟩
  · exact haloExchange_bottom size (rows / size) (heatAll rows columns size focal surf) r j
      (by omega)
  · have := haloExchange_top size (rows / size) (heatAll rows columns size focal surf) (r + 1) j
      (by omega)
    simpa using this
  · exact haloExchange_owned size (rows / size) (heatAll rows columns size focal surf) r2 li j
      hli.1 hli.2
  · exact subStep_outward_top rows columns size focal surf j
  · exact subStep_outward_bottom rows columns size focal surf j
  · exact suppressAll_frame rows columns (gS r2 (rows / size)) (gE r2 (rows / size)) teams g 0 j
      (Or.inl (by omega))
  · exact suppressAll_frame rows columns (gS r2 (rows / size)) (gE r2 (rows / size)) teams g
      (((rows / size : ℕ) : ℤ) + 1) j (Or.inr (by omega))

theorem halo_exchange_freshness_witness :
    ((0 : ℕ) + 1 < 2 ∧ ((1 : ℤ) ≤ 1 ∧ (1 : ℤ) ≤ ((4 / 2 : ℕ) : ℤ))) ∧
    (exchanged 4 3 2 [] (fun _ => fun _ _ => 3) 0 (((4 / 2 : ℕ) : ℤ) + 1) 0 =
      heatAll 4 3 2 [] (fun _ => fun _ _ => 3) (0 + 1) 1 0 ∧
    exchanged 4 3 2 [] (fun _ => fun _ _ => 3) (0 + 1) 0 0 =
      heatAll 4 3 2 [] (fun _ => fun _ _ => 3) 0 ((4 / 2 : ℕ) : ℤ) 0 ∧
    exchanged 4 3 2 [] (fun _ => fun _ _ => 3) 1 1 0 =
      heatAll 4 3 2 [] (fun _ => fun _ _ => 3) 1 1 0 ∧
    (subStep 4 3 2 [] (fun _ => fun _ _ => 3)).1 0 0 0 = 3 ∧
    (subStep 4 3 2 [] (fun _ => fun _ _ => 3)).1 (2 - 1) (((4 / 2 : ℕ) : ℤ) + 1) 0 = 3 ∧
    suppressAll 4 3 (gS 1 (4 / 2)) (gE 1 (4 / 2)) [] (fun _ _ => 3) 0 0 = 3 ∧
    suppressAll 4 3 (gS 1 (4 / 2)) (gE 1 (4 / 2)) [] (fun _ _ => 3)
      (((4 / 2 : ℕ) : ℤ) + 1) 0 = 3) := by
  refine ⟨by decide, ?_⟩
  exact halo_exchange_freshness 4 3 2 [] [] (fun _ => fun _ _ => 3) (fun _ _ => 3) 0 1 1 0
    (by decide) (by decide)

/-- C5: the replicated team and focal update of an outer iteration
(activation, targeting, movement, deactivation) is a pure function of the
replicated state and the iteration counter: two workers applying it to equal
replicated state with the same iteration counter produce equal replicated
state with no communication, and the team and focal components of the full
outer iteration coincide with this pure function and are independent of the
per-rank grid contents and of the incoming stability flag, the only
rank-varying data. -/
theorem replicated_update_deterministic (rows columns size : Nat) (iter : Int)
    (sA sB : Nat → Grid) (flA flB : Bool)
    (t1 t2 : List Team) (f1 f2 : List FocalPoint) (ht : t1 = t2) (hf : f1 = f2) :
    replicatedUpdate iter t1 f1 = replicatedUpdate iter t2 f2 ∧
    (outerIter rows columns size iter ⟨sA, t1, f1, flA⟩).teams =
      (replicatedUpdate iter t1 f1).1 ∧
    (outerIter rows columns size iter ⟨sA, t1, f1, flA⟩).focal =
      (replicatedUpdate iter t1 f1).2 ∧
    (outerIter rows columns size iter ⟨sA, t1, f1, flA⟩).teams =
      (outerIter rows columns size iter ⟨sB, t2, f2, flB⟩).teams ∧
    (outerIter rows columns size iter ⟨sA, t1, f1, flA⟩).focal =
      (outerIter rows columns size iter ⟨sB, t2, f2, flB⟩).focal := by
  subst ht
  subst hf
  exact ⟨rfl, rfl, rfl, rfl, rfl⟩

theorem replicated_update_deterministic_witness :
    ([⟨0, 0, 1, -1⟩] : List Team) = [⟨0, 0, 1, -1⟩] ∧
    (replicatedUpdate 0 [⟨0, 0, 1, -1⟩] [⟨1, 1, 0, 9, 0⟩] =
      replicatedUpdate 0 [⟨0, 0, 1, -1⟩] [⟨1, 1, 0, 9, 0⟩] ∧
    (outerIter 3 3 1 0 ⟨fun _ => fun _ _ => 0, [⟨0, 0, 1, -1⟩], [⟨1, 1, 0, 9, 0⟩], false⟩).teams =
      (replicatedUpdate 0 [⟨0, 0, 1, -1⟩] [⟨1, 1, 0, 9, 0⟩]).1 ∧
    (outerIter 3 3 1 0 ⟨fun _ => fun _ _ => 0, [⟨0, 0, 1, -1⟩], [⟨1, 1, 0, 9, 0⟩], false⟩).focal =
      (replicatedUpdate 0 [⟨0, 0, 1, -1⟩] [⟨1, 1, 0, 9, 0⟩]).2 ∧
    (outerIter 3 3 1 0 ⟨fun _ => fun _ _ => 0, [⟨0, 0, 1, -1⟩], [⟨1, 1, 0, 9, 0⟩], false⟩).teams =
      (outerIter 3 3 1 0 ⟨fun _ => fun _ _ => 1, [⟨0, 0, 1, -1⟩], [⟨1, 1, 0, 9, 0⟩], true⟩).teams ∧
    (outerIter 3 3 1 0 ⟨fun _ => fun _ _ => 0, [⟨0, 0, 1, -1⟩], [⟨1, 1, 0, 9, 0⟩], false⟩).focal =
      (outerIter 3 3 1 0 ⟨fun _ => fun _ _ => 1, [⟨0, 0, 1, -1⟩], [⟨1, 1, 0, 9, 0⟩], true⟩).focal) :=
  ⟨rfl,
   replicated_update_deterministic 3 3 1 0 (fun _ => fun _ _ => 0) (fun _ => fun _ _ => 1)
     false true [⟨0, 0, 1, -1⟩] [⟨0, 0, 1, -1⟩] [⟨1, 1, 0, 9, 0⟩] [⟨1, 1, 0, 9, 0⟩] rfl rfl⟩

/-- C6: the heat reassertion and the team heat suppression executed on a rank
whose owned global rows are [r*chunk, r*chunk + chunk - 1] leave every local
cell outside the owned local rows 1..chunk unchanged: both halo rows (local
rows 0 and chunk+1) and, since local row li holds global row r*chunk + li - 1,
every cell of a non-owned global row. -/
theorem heat_suppress_own_rows_only (rows columns chunk : Nat) (r : Nat)
    (focal : List FocalPoint) (teams : List Team) (g g2 : Grid) (li j : Int)
    (h : li < 1 ∨ (chunk : Int) < li) :
    heatWrites rows columns (gS r chunk) (gE r chunk) focal g li j = g li j ∧
    suppressAll rows columns (gS r chunk) (gE r chunk) teams g2 li j = g2 li j := by
  have hh : li < 1 ∨ gE r chunk - gS r chunk + 1 < li := by
    simp only [gS, gE]
    omega
  exact ⟨heatWrites_frame rows columns (gS r chunk) (gE r chunk) focal g li j hh,
         suppressAll_frame rows columns (gS r chunk) (gE r chunk) teams g2 li j hh⟩

theorem heat_suppress_own_rows_only_witness :
    ((0 : ℤ) < 1 ∨ (2 : ℤ) < 0) ∧
    (heatWrites 4 4 (gS 1 2) (gE 1 2) [⟨2, 1, 0, 9, 1⟩] (fun _ _ => 7) 0 1 = 7 ∧
     suppressAll 4 4 (gS 1 2) (gE 1 2) [⟨2, 2, 1, 0⟩] (fun _ _ => 7) 0 1 = 7) :=
  ⟨Or.inl (by decide),
   heat_suppress_own_rows_only 4 4 2 1 [⟨2, 1, 0, 9, 1⟩] [⟨2, 2, 1, 0⟩]
     (fun _ _ => 7) (fun _ _ => 7) 0 1 (Or.inl (by decide))⟩

/-! Lemmas about the target scan of step 4.3.1. -/

theorem d2To_nonneg (tx ty : Int) (p : FocalPoint) : 0 ≤ d2To tx ty p :=
  add_nonneg (mul_self_nonneg _) (mul_self_nonneg _)

theorem chooseTargetAux_spec (tx ty : Int) (l : List FocalPoint) :
    ∀ (j : Nat) (acc : Option Int × Int),
      (chooseTargetAux tx ty j l acc = acc ∧
        ∀ i (hi : i < l.length), (l.get ⟨i, hi⟩).active = 1 →
          ∃ b, acc.1 = some b ∧ b ≤ d2To tx ty (l.get ⟨i, hi⟩))
      ∨ (∃ i, ∃ hi : i < l.length, (l.get ⟨i, hi⟩).active = 1 ∧
          chooseTargetAux tx ty j l acc =
            (some (d2To tx ty (l.get ⟨i, hi⟩)), ((j + i : Nat) : Int)) ∧
          (∀ k (hk : k < l.length), (l.get ⟨k, hk⟩).active = 1 →
            d2To tx ty (l.get ⟨i, hi⟩) ≤ d2To tx ty (l.get ⟨k, hk⟩) ∧
            (k < i → d2To tx ty (l.get ⟨i, hi⟩) < d2To tx ty (l.get ⟨k, hk⟩))) ∧
          (∀ b, acc.1 = some b → d2To tx ty (l.get ⟨i, hi⟩) < b)) := by
  induction l with
  | nil =>
    intro j acc
    exact Or.inl ⟨rfl, fun i hi => absurd hi (by simp)⟩
  | cons p rest ih =>
    intro j acc
    by_cases hcond : p.active = 1 ∧ betterB (d2To tx ty p) acc.1 = true
    · have hstep : chooseTargetAux tx ty j (p :: rest) acc =
          chooseTargetAux tx ty (j + 1) rest (some (d2To tx ty p), (j : Int)) := by
        show chooseTargetAux tx ty (j + 1) rest
          (if p.active = 1 ∧ betterB (d2To tx ty p) acc.1 = true
           then (some (d2To tx ty p), (j : Int)) else acc) = _
        rw [if_pos hcond]
      rcases ih (j + 1) (some (d2To tx ty p), (j : Int)) with
        ⟨heq, hbound⟩ | ⟨i, hi, hact, heq, hmin, hacc⟩
      · -- the head wins: no later candidate replaced it
        right
        refine ⟨0, by simp only [List.length_cons]; omega, hcond.1, ?_, ?_, ?_⟩
        · rw [hstep, heq]
          simp only [Prod.mk.injEq]
          exact ⟨rfl, by omega⟩
        · intro k hk hkact
          cases k with
          | zero => exact ⟨le_refl _, fun h0 => absurd h0 (by omega)⟩
          | succ k2 =>
            have hk2 : k2 < rest.length := by simpa using hk
            obtain ⟨b, hb1, hb2⟩ := hbound k2 hk2 hkact
            have hbd : b = d2To tx ty p := (Option.some.inj hb1).symm
            subst hbd
            exact ⟨hb2, fun hlt => absurd hlt (by omega)⟩
        · intro b hb
          have hbet := hcond.2
          rw [hb] at hbet
          exact of_decide_eq_true hbet
      · -- a later candidate strictly beat the head
        right
        have hilen : i + 1 < (p :: rest).length := by
          simp only [List.length_cons]; omega
        refine ⟨i + 1, hilen, hact, ?_, ?_, ?_⟩
        · rw [hstep, heq]
          simp only [Prod.mk.injEq]
          exact ⟨rfl, by omega⟩
        · intro k hk hkact
          cases k with
          | zero =>
            have hd : d2To tx ty (rest.get ⟨i, hi⟩) < d2To tx ty p :=
              hacc (d2To tx ty p) rfl
            exact ⟨le_of_lt hd, fun h0 => hd⟩
          | succ k2 =>
            have hk2 : k2 < rest.length := by simpa using hk
            have hm := hmin k2 hk2 hkact
            exact ⟨hm.1, fun hlt => hm.2 (by omega)⟩
        · intro b hb
          have hbet := hcond.2
          rw [hb] at hbet
          have hpb : d2To tx ty p < b := of_decide_eq_true hbet
          exact lt_trans (hacc (d2To tx ty p) rfl) hpb
    · -- no update at the head
      have hstep : chooseTargetAux tx ty j (p :: rest) acc =
          chooseTargetAux tx ty (j + 1) rest acc := by
        show chooseTargetAux tx ty (j + 1) rest
          (if p.active = 1 ∧ betterB (d2To tx ty p) acc.1 = true
           then (some (d2To tx ty p), (j : Int)) else acc) = _
        rw [if_neg hcond]
      have hhead : p.active = 1 → ∃ b0, acc.1 = some b0 ∧ b0 ≤ d2To tx ty p := by
        intro hp1
        cases hacc1 : acc.1 with
        | none =>
          exfalso
          exact hcond ⟨hp1, by rw [hacc1]; rfl⟩
        | some b0 =>
          refine ⟨b0, rfl, ?_⟩
          by_contra hlt
          push_neg at hlt
          exact hcond ⟨hp1, by rw [hacc1]; exact decide_eq_true hlt⟩
      rcases ih (j + 1) acc with ⟨heq, hbound⟩ | ⟨i, hi, hact, heq, hmin, hacc⟩
      · left
        refine ⟨hstep.trans heq, ?_⟩
        intro k hk hkact
        cases k with
        | zero => exact hhead hkact
        | succ k2 =>
          have hk2 : k2 < rest.length := by simpa using hk
          exact hbound k2 hk2 hkact
      · right
        have hilen : i + 1 < (p :: rest).length := by
          simp only [List.length_cons]; omega
        refine ⟨i + 1, hilen, hact, ?_, ?_, ?_⟩
        · rw [hstep, heq]
          simp only [Prod.mk.injEq]
          exact ⟨rfl, by omega⟩
        · intro k hk hkact
          cases k with
          | zero =>
            obtain ⟨b0, hb0, hble⟩ := hhead hkact
            have hd : d2To tx ty (rest.get ⟨i, hi⟩) < d2To tx ty p :=
              lt_of_lt_of_le (hacc b0 hb0) hble
            exact ⟨le_of_lt hd, fun h0 => hd⟩
          | succ k2 =>
            have hk2 : k2 < rest.length := by simpa using hk
            have hm := hmin k2 hk2 hkact
            exact ⟨hm.1, fun hlt => hm.2 (by omega)⟩
        · exact hacc

theorem moveTeam_target (focal : List FocalPoint) (tm : Team) :
    (moveTeam focal tm).target = chooseTarget focal tm.x tm.y := by
  simp only [moveTeam]
  repeat' split
  all_goals rfl

theorem moveTeam_no_active (focal : List FocalPoint) (tm : Team)
    (h : chooseTarget focal tm.x tm.y = -1) :
    moveTeam focal tm = { tm with target := -1 } := by
  simp only [moveTeam]
  rw [h]
  simp

/-- C7: the targets computed by the movement phase.  If no focal point is
Active the team gets target -1 and its position is unchanged.  Otherwise the
team gets as target a valid index of an Active focal point whose Euclidean
distance to the current team position is minimal among all Active focal
points, and every Active focal point of strictly smaller index is at strictly
greater distance, so ties are broken in favor of the lowest index.  Distances
appear as square roots of the integer squared distances, exactly what the
float code compares (sqrt is strictly monotone). -/
theorem target_nearest_active_focal (focal : List FocalPoint) (tm : Team) :
    ((∀ p ∈ focal, p.active ≠ 1) →
       (moveTeam focal tm).target = -1 ∧ (moveTeam focal tm).x = tm.x ∧
       (moveTeam focal tm).y = tm.y) ∧
    (∀ k0 (hk0 : k0 < focal.length), (focal.get ⟨k0, hk0⟩).active = 1 →
       ∃ t, ∃ ht : t < focal.length,
         (moveTeam focal tm).target = (t : Int) ∧ (focal.get ⟨t, ht⟩).active = 1 ∧
         ∀ k (hk : k < focal.length), (focal.get ⟨k, hk⟩).active = 1 →
           (Real.sqrt ((d2To tm.x tm.y (focal.get ⟨t, ht⟩) : ℤ) : ℝ) ≤
              Real.sqrt ((d2To tm.x tm.y (focal.get ⟨k, hk⟩) : ℤ) : ℝ) ∧
            (k < t →
              Real.sqrt ((d2To tm.x tm.y (focal.get ⟨t, ht⟩) : ℤ) : ℝ) <
                Real.sqrt ((d2To tm.x tm.y (focal.get ⟨k, hk⟩) : ℤ) : ℝ)))) := by
  have hspec := chooseTargetAux_spec tm.x tm.y focal 0 (none, -1)
  constructor
  · intro hnone
    have hleft : chooseTarget focal tm.x tm.y = -1 := by
      rcases hspec with ⟨heq, -⟩ | ⟨i, hi, hact, -, -, -⟩
      · unfold chooseTarget
        rw [heq]
      · exact absurd hact (hnone _ (List.get_mem focal i hi))
    rw [moveTeam_no_active focal tm hleft]
    exact ⟨rfl, rfl, rfl⟩
  · intro k0 hk0 hk0act
    rcases hspec with ⟨-, hbound⟩ | ⟨i, hi, hact, heq, hmin, -⟩
    · obtain ⟨b, hb, -⟩ := hbound k0 hk0 hk0act
      exact absurd hb (by simp)
    · refine ⟨i, hi, ?_, hact, ?_⟩
      · rw [moveTeam_target]
        unfold chooseTarget
        rw [heq]
        simp
      · intro k hk hkact
        have hm := hmin k hk hkact
        have h0le : (0 : ℝ) ≤ ((d2To tm.x tm.y (focal.get ⟨i, hi⟩) : ℤ) : ℝ) := by
          exact_mod_cast d2To_nonneg tm.x tm.y (focal.get ⟨i, hi⟩)
        constructor
        · apply Real.sqrt_le_sqrt
          exact_mod_cast hm.1
        · intro hki
          apply Real.sqrt_lt_sqrt h0le
          exact_mod_cast hm.2 hki

theorem target_nearest_active_focal_witness :
    (([⟨0, 0, 0, 9, 0⟩, ⟨2, 2, 0, 9, 1⟩, ⟨1, 1, 0, 9, 1⟩] : List FocalPoint).get
        ⟨1, by decide⟩).active = 1 ∧
    (∃ t, ∃ ht : t <
        ([⟨0, 0, 0, 9, 0⟩, ⟨2, 2, 0, 9, 1⟩, ⟨1, 1, 0, 9, 1⟩] : List FocalPoint).length,
      (moveTeam [⟨0, 0, 0, 9, 0⟩, ⟨2, 2, 0, 9, 1⟩, ⟨1, 1, 0, 9, 1⟩] ⟨0, 0, 1, -1⟩).target =
        (t : Int) ∧
      (([⟨0, 0, 0, 9, 0⟩, ⟨2, 2, 0, 9, 1⟩, ⟨1, 1, 0, 9, 1⟩] : List FocalPoint).get
        ⟨t, ht⟩).active = 1 ∧
      ∀ k (hk : k <
          ([⟨0, 0, 0, 9, 0⟩, ⟨2, 2, 0, 9, 1⟩, ⟨1, 1, 0, 9, 1⟩] : List FocalPoint).length),
        (([⟨0, 0, 0, 9, 0⟩, ⟨2, 2, 0, 9, 1⟩, ⟨1, 1, 0, 9, 1⟩] : List FocalPoint).get
          ⟨k, hk⟩).active = 1 →
        (Real.sqrt ((d2To 0 0 (([⟨0, 0, 0, 9, 0⟩, ⟨2, 2, 0, 9, 1⟩, ⟨1, 1, 0, 9, 1⟩] :
              List FocalPoint).get ⟨t, ht⟩) : ℤ) : ℝ) ≤
           Real.sqrt ((d2To 0 0 (([⟨0, 0, 0, 9, 0⟩, ⟨2, 2, 0, 9, 1⟩, ⟨1, 1, 0, 9, 1⟩] :
              List FocalPoint).get ⟨k, hk⟩) : ℤ) : ℝ) ∧
         (k < t →
           Real.sqrt ((d2To 0 0 (([⟨0, 0, 0, 9, 0⟩, ⟨2, 2, 0, 9, 1⟩, ⟨1, 1, 0, 9, 1⟩] :
              List FocalPoint).get ⟨t, ht⟩) : ℤ) : ℝ) <
             Real.sqrt ((d2To 0 0 (([⟨0, 0, 0, 9, 0⟩, ⟨2, 2, 0, 9, 1⟩, ⟨1, 1, 0, 9, 1⟩] :
              List FocalPoint).get ⟨k, hk⟩) : ℤ) : ℝ)))) := by
  refine ⟨by decide, ?_⟩
  exact (target_nearest_active_focal
    [⟨0, 0, 0, 9, 0⟩, ⟨2, 2, 0, 9, 1⟩, ⟨1, 1, 0, 9, 1⟩] ⟨0, 0, 1, -1⟩).2 1
    (by decide) (by decide)

/-! Lemmas about the team-action phase (step 4.4.1). -/

theorem teamActionStep_get? (tm : Team) (fl : List FocalPoint) (i : Nat) :
    (teamActionStep tm fl)[i]? = fl[i]? ∨
    ∃ p, fl[i]? = some p ∧ (teamActionStep tm fl)[i]? = some { p with active := 2 } := by
  unfold teamActionStep
  split
  · split
    · rename_i p hp
      split
      · by_cases hieq : tm.target.toNat = i
        · subst hieq
          right
          refine ⟨p, hp, ?_⟩
          have hlt : tm.target.toNat < fl.length := (List.getElem?_eq_some_iff.mp hp).1
          exact List.getElem?_set_eq_of_lt { p with active := 2 } hlt (l := fl)
        · exact Or.inl (List.getElem?_set_ne hieq)
      · exact Or.inl rfl
    · exact Or.inl rfl
  · exact Or.inl rfl

theorem teamActionsFocal_get? (teams : List Team) (fl : List FocalPoint) (i : Nat) :
    (teamActionsFocal teams fl)[i]? = fl[i]? ∨
    ∃ p, fl[i]? = some p ∧ (teamActionsFocal teams fl)[i]? = some { p with active := 2 } := by
  induction teams generalizing fl with
  | nil => exact Or.inl rfl
  | cons hd ts ih =>
    have hstep := teamActionStep_get? hd fl i
    have hrest := ih (teamActionStep hd fl)
    rcases hrest with hsame | ⟨p, hp, hret⟩
    · rcases hstep with hs2 | ⟨q, hq, hq2⟩
      · exact Or.inl (hsame.trans hs2)
      · exact Or.inr ⟨q, hq, hsame.trans hq2⟩
    · rcases hstep with hs2 | ⟨q, hq, hq2⟩
      · exact Or.inr ⟨p, hs2 ▸ hp, hret⟩
      · rw [hq2] at hp
        have hqp : { q with active := 2 } = p := Option.some.inj hp
        refine Or.inr ⟨q, hq, ?_⟩
        subst hqp
        exact hret
    -- the composed result of two deactivating writes is a single one

theorem teamActionsFocal_active2 (teams : List Team) (fl : List FocalPoint)
    (i : Nat) (p : FocalPoint) (hp : fl[i]? = some p) (h2 : p.active = 2) :
    ∃ p2, (teamActionsFocal teams fl)[i]? = some p2 ∧ p2.active = 2 ∧
      p2.x = p.x ∧ p2.y = p.y ∧ p2.start = p.start := by
  rcases teamActionsFocal_get? teams fl i with hsame | ⟨q, hq, hret⟩
  · exact ⟨p, hsame.trans hp, h2, rfl, rfl, rfl⟩
  · rw [hq] at hp
    have hqp : q = p := Option.some.inj hp
    subst hqp
    exact ⟨{ q with active := 2 }, hret, rfl, rfl, rfl, rfl⟩

theorem teamActionStep_fires (tm : Team) (fl : List FocalPoint) (t : Nat) (p : FocalPoint)
    (htgt : tm.target = (t : Int)) (hp : fl[t]? = some p)
    (hx : p.x = tm.x) (hy : p.y = tm.y) (hact : p.active = 1) :
    (teamActionStep tm fl)[t]? = some { p with active := 2 } := by
  have htn : tm.target.toNat = t := by rw [htgt]; exact Int.toNat_natCast t
  have hne : tm.target ≠ -1 := by rw [htgt]; omega
  unfold teamActionStep
  rw [if_pos hne]
  simp only [htn, hp]
  rw [if_pos ⟨hx, hy, hact⟩]
  exact List.getElem?_set_eq_of_lt { p with active := 2 } (List.getElem?_eq_some_iff.mp hp).1

theorem teamActionsFocal_fires (teams : List Team) (fl : List FocalPoint) (tm : Team)
    (t : Nat) (p : FocalPoint) (hmem : tm ∈ teams) (htgt : tm.target = (t : Int))
    (hp : fl[t]? = some p) (hx : p.x = tm.x) (hy : p.y = tm.y)
    (hact : p.active = 1 ∨ p.active = 2) :
    ∃ p2, (teamActionsFocal teams fl)[t]? = some p2 ∧ p2.active = 2 := by
  induction teams generalizing fl p with
  | nil => cases hmem
  | cons hd ts ih =>
    rcases List.mem_cons.mp hmem with heq | hmem2
    · subst heq
      rcases hact with h1 | h2
      · have hstep := teamActionStep_fires tm fl t p htgt hp hx hy h1
        obtain ⟨p2, hg, ha, -, -, -⟩ :=
          teamActionsFocal_active2 ts (teamActionStep tm fl) t { p with active := 2 } hstep rfl
        exact ⟨p2, hg, ha⟩
      · rcases teamActionStep_get? tm fl t with hsame | ⟨q, hq, hret⟩
        · obtain ⟨p2, hg, ha, -, -, -⟩ :=
            teamActionsFocal_active2 ts (teamActionStep tm fl) t p (hsame.trans hp) h2
          exact ⟨p2, hg, ha⟩
        · rw [hq] at hp
          have hqp : q = p := Option.some.inj hp
          subst hqp
          obtain ⟨p2, hg, ha, -, -, -⟩ :=
            teamActionsFocal_active2 ts (teamActionStep tm fl) t { q with active := 2 } hret rfl
          exact ⟨p2, hg, ha⟩
    · rcases teamActionStep_get? hd fl t with hsame | ⟨q, hq, hret⟩
      · exact ih (teamActionStep hd fl) p hmem2 (hsame.trans hp) hx hy hact
      · rw [hq] at hp
        have hqp : q = p := Option.some.inj hp
        subst hqp
        exact ih (teamActionStep hd fl) { q with active := 2 } hmem2 hret hx hy (Or.inr rfl)

theorem activateFocal_get? (iter : Int) (fl : List FocalPoint) (i : Nat) (p : FocalPoint)
    (hp : fl[i]? = some p) :
    (activateFocal iter fl)[i]? =
      some (if p.start = iter then { p with active := 1 } else p) := by
  unfold activateFocal
  rw [List.getElem?_map, hp]
  rfl

/-- C8 counterexample: with one type-1 team at (1,1) and two focal points both
active at (1,1), the team targets focal point 0 (lowest index at distance 0),
does not move, and the team-action phase deactivates only its target: after
the phase the team coordinates (1,1) equal the coordinates of focal point 1,
which was Active throughout, yet focal point 1 is still in state 1 (Active),
not Deactivated, contradicting the claim as stated. -/
theorem nontarget_colocated_focal_not_deactivated :
    ((replicatedUpdate 3 [⟨1, 1, 1, -1⟩] [⟨1, 1, 0, 100, 1⟩, ⟨1, 1, 0, 100, 1⟩]).1)[0]? =
      some ⟨1, 1, 1, 0⟩ ∧
    (([⟨1, 1, 0, 100, 1⟩, ⟨1, 1, 0, 100, 1⟩] : List FocalPoint)[1]?) =
      some ⟨1, 1, 0, 100, 1⟩ ∧
    ((replicatedUpdate 3 [⟨1, 1, 1, -1⟩] [⟨1, 1, 0, 100, 1⟩, ⟨1, 1, 0, 100, 1⟩]).2)[1]? =
      some ⟨1, 1, 0, 100, 1⟩ ∧
    ((replicatedUpdate 3 [⟨1, 1, 1, -1⟩]
        [⟨1, 1, 0, 100, 1⟩, ⟨1, 1, 0, 100, 1⟩]).2)[0]? = some ⟨1, 1, 0, 100, 2⟩ := by
  decide

/-- C8 (amended): whenever after the movement phase a team occupies the exact
coordinates of its target focal point and that focal point is Active, the
target focal point is set to Deactivated during the team-action phase of that
iteration (first conjunct); and a Deactivated focal point never returns to any
other state: it stays Deactivated through the team-action phase of any
iteration, and through focal activation provided its start tick is not the
current iteration (which holds on every reachable state, since activation
happens only in the iteration equal to the start tick while deactivation can
happen no earlier than that same iteration). -/
theorem target_deactivation_and_irreversible (iter : Int) (teams teams2 : List Team)
    (focal focal2 : List FocalPoint) (tm : Team) (t i : Nat) (p q : FocalPoint)
    (hmem : tm ∈ teams) (htgt : tm.target = (t : Int))
    (hp : focal[t]? = some p) (hx : p.x = tm.x) (hy : p.y = tm.y) (hact : p.active = 1)
    (hq : focal2[i]? = some q) (h2 : q.active = 2) (hst : q.start ≠ iter) :
    (∃ p2, (teamActionsFocal teams focal)[t]? = some p2 ∧ p2.active = 2) ∧
    (∃ q2, (teamActionsFocal teams2 (activateFocal iter focal2))[i]? = some q2 ∧
       q2.active = 2) := by
  constructor
  · exact teamActionsFocal_fires teams focal tm t p hmem htgt hp hx hy (Or.inl hact)
  · have hq2 : (activateFocal iter focal2)[i]? = some q := by
      rw [activateFocal_get? iter focal2 i q hq, if_neg hst]
    obtain ⟨q2, hget, h2b, -, -, -⟩ :=
      teamActionsFocal_active2 teams2 (activateFocal iter focal2) i q hq2 h2
    exact ⟨q2, hget, h2b⟩

theorem target_deactivation_and_irreversible_witness :
    ((⟨2, 3, 1, 0⟩ : Team) ∈ ([⟨2, 3, 1, 0⟩] : List Team) ∧
     (⟨2, 3, 1, 0⟩ : Team).target = ((0 : Nat) : Int) ∧
     ([⟨2, 3, 5, 50, 1⟩] : List FocalPoint)[(0 : Nat)]? = some ⟨2, 3, 5, 50, 1⟩ ∧
     ([⟨7, 7, 0, 9, 2⟩] : List FocalPoint)[(0 : Nat)]? = some ⟨7, 7, 0, 9, 2⟩) ∧
    ((∃ p2, (teamActionsFocal [⟨2, 3, 1, 0⟩] [⟨2, 3, 5, 50, 1⟩])[(0 : Nat)]? = some p2 ∧
        p2.active = 2) ∧
     (∃ q2, (teamActionsFocal [] (activateFocal 4 [⟨7, 7, 0, 9, 2⟩]))[(0 : Nat)]? = some q2 ∧
        q2.active = 2)) := by
  refine ⟨by decide, ?_⟩
  exact target_deactivation_and_irreversible 4 [⟨2, 3, 1, 0⟩] [] [⟨2, 3, 5, 50, 1⟩]
    [⟨7, 7, 0, 9, 2⟩] ⟨2, 3, 1, 0⟩ 0 0 ⟨2, 3, 5, 50, 1⟩ ⟨7, 7, 0, 9, 2⟩
    (by decide) (by decide) (by decide) (by decide) (by decide) (by decide)
    (by decide) (by decide) (by decide)

/-- C9: the source reports a failed surface or surfaceCopy slice allocation to
standard error but then falls through into the initialization loops without
exiting or calling MPI_Abort, contradicting the claim that the process aborts
before the simulation proceeds; the team and focal allocations do exit, and
the rank 0 fullSurface allocation does call MPI_Abort. -/
theorem surface_alloc_failure_no_abort :
    surfaceAllocCheck true false = AllocBehavior.reportContinue ∧
    surfaceAllocCheck false true = AllocBehavior.reportContinue ∧
    surfaceAllocCheck true false ≠ AllocBehavior.reportExit ∧
    surfaceAllocCheck true false ≠ AllocBehavior.reportMpiAbort ∧
    teamsAllocCheck true = AllocBehavior.reportExit ∧
    focalAllocCheck true = AllocBehavior.reportExit ∧
    fullSurfaceAllocCheck true = AllocBehavior.reportMpiAbort := by
  decide

/-- C1: counterexample evaluation for the stability test with two workers.
With worker count 2 and a single focal point already deactivated, every focal
point is deactivated and the globally reduced residual of the last sub-step is
0, below THRESHOLD, so the claim requires the stability flag to become true;
but every rank contributes its identical replicated count to an MPI SUM
reduction, so num_deactivated evaluates to 2, the comparison with num_focal = 1
fails, and the flag stays false. -/
theorem stability_flag_sum_bug :
    (∀ p ∈ ([⟨0, 0, 0, 5, 2⟩] : List FocalPoint), p.active = 2) ∧
    (subStepsLoop 2 2 2 (activateFocal 7 [⟨0, 0, 0, 5, 2⟩]) 10
        ((fun _ => fun _ _ => 0), 0)).2 < threshold ∧
    allreduceSum 2 (fun _ => countDeactivated (activateFocal 7 [⟨0, 0, 0, 5, 2⟩])) = 2 ∧
    (outerIter 2 2 2 7 ⟨fun _ => fun _ _ => 0, [], [⟨0, 0, 0, 5, 2⟩], false⟩).flag = false := by
  decide

/-- C10: counterexample evaluation for the claim that the stability flag is
never set in the outer iteration in which the deactivated count first reaches
the total.  With worker count 2 and two focal points of which one is already
deactivated, the second is deactivated by the team during the team-action
phase of this iteration (the count goes from 1 to 2 within the iteration),
yet the SUM reduction of the replicated counts yields 2 = num_focal already at
the start of the iteration, so the flag is set in this very iteration. -/
theorem stability_stale_count_bug :
    countDeactivated [⟨0, 0, 0, 5, 2⟩, ⟨1, 1, 0, 5, 1⟩] = 1 ∧
    ([⟨0, 0, 0, 5, 2⟩, ⟨1, 1, 0, 5, 1⟩] : List FocalPoint).length = 2 ∧
    (outerIter 2 2 2 5 ⟨fun _ => fun _ _ => 0, [⟨1, 1, 1, -1⟩],
        [⟨0, 0, 0, 5, 2⟩, ⟨1, 1, 0, 5, 1⟩], false⟩).flag = true ∧
    countDeactivated (outerIter 2 2 2 5 ⟨fun _ => fun _ _ => 0, [⟨1, 1, 1, -1⟩],
        [⟨0, 0, 0, 5, 2⟩, ⟨1, 1, 0, 5, 1⟩], false⟩).focal = 2 := by
  decide

end FireSim
